import Mathlib

/-!
Shallow embedding of the regression engine in
`inferelator/regression/base_regression.py`, over exact rational arithmetic.

Matrices over `ℚ` stand for the numpy float arrays.  Solving a linear
system, the numpy rank test and the scipy singularity exception are rendered
by their exact-arithmetic equivalents: a square matrix over a field is full
rank iff its determinant is nonzero, `np.linalg.solve` and
`scipy.linalg.solve` return the unique solution of a nonsingular system and
raise `LinAlgError` on a singular one.  Python exceptions are rendered by
`Except`.  Determinants are computed by an executable Laplace expansion
`detQ`, proved equal to Mathlib `Matrix.det`.
-/

set_option maxRecDepth 10000

namespace Inferelator

/-- Sample variance with one delta degree of freedom, as computed by
numpy `np.var(v, ddof=1)`: the mean uses denominator `n`, the variance uses
denominator `n - 1`. -/
def var_ddof1 {n : ℕ} (v : Fin n → ℚ) : ℚ :=
  (∑ i, (v i - (∑ i, v i) / (n : ℚ)) ^ 2) / ((n : ℚ) - 1)

/-- Embedding of `bool_to_index` (base_regression.py line 362): the list of
positions of the `true` entries of a boolean mask, in increasing order,
as produced by `np.where(arr)[0]`. -/
def bool_to_index {k : ℕ} (arr : Fin k → Bool) : List (Fin k) :=
  (List.finRange k).filter (fun j => arr j)

/-- Embedding of `index_of_nonzeros` (line 352): positions of the nonzero
entries of a vector, in increasing order, as `np.where(arr != 0)[0]`. -/
def index_of_nonzeros {k : ℕ} (arr : Fin k → ℚ) : List (Fin k) :=
  (List.finRange k).filter (fun j => decide (arr j ≠ 0))

/-- Embedding of the numpy column subset `x[:, idx]` for an index list. -/
def submatrix_cols {n k : ℕ} (x : Matrix (Fin n) (Fin k) ℚ) (l : List (Fin k)) :
    Matrix (Fin n) (Fin l.length) ℚ :=
  fun i j => x i (l.get j)

/-- Executable determinant by Laplace expansion along the first row. -/
def detQ : {m : ℕ} → Matrix (Fin m) (Fin m) ℚ → ℚ
  | 0, _ => 1
  | m + 1, A =>
    ∑ j : Fin (m + 1),
      (-1) ^ (j : ℕ) * A 0 j * detQ (A.submatrix Fin.succ j.succAbove)

/-- Executable Cramer rule vector: component `j` is the determinant of the
matrix with column `j` replaced by the right-hand side. -/
def cramerQ {m : ℕ} (A : Matrix (Fin m) (Fin m) ℚ) (b : Fin m → ℚ) :
    Fin m → ℚ :=
  fun j => detQ (A.updateColumn j b)

/-- Exact solution of a nonsingular square linear system, by the Cramer
rule; this is the value `np.linalg.solve` and `scipy.linalg.solve` compute
on a nonsingular system (both raise on a singular one). -/
def solveLinear {m : ℕ} (A : Matrix (Fin m) (Fin m) ℚ) (b : Fin m → ℚ) :
    Fin m → ℚ :=
  (detQ A)⁻¹ • cramerQ A b

/-- Gram matrix `np.dot(x.T, x)` of the selected columns. -/
def selected_gram {n k : ℕ} (x : Matrix (Fin n) (Fin k) ℚ) (l : List (Fin k)) :
    Matrix (Fin l.length) (Fin l.length) ℚ :=
  (submatrix_cols x l).transpose * submatrix_cols x l

/-- Right-hand side `np.dot(x.T, y)` of the normal equations for the
selected columns. -/
def selected_xty {n k : ℕ} (x : Matrix (Fin n) (Fin k) ℚ) (y : Fin n → ℚ)
    (l : List (Fin k)) : Fin l.length → ℚ :=
  (submatrix_cols x l).transpose.mulVec y

/-- Index list selected by `recalculate_betas_from_selected` (lines
274-279): all predictors when `idx` is `None`, otherwise the positions of
the true entries of the boolean mask. -/
def selected_of {k : ℕ} (idx : Option (Fin k → Bool)) : List (Fin k) :=
  bool_to_index (idx.getD (fun _ => true))

/-- Coefficients computed for the selected columns (lines 284-289): the
solution of the normal equations when the Gram matrix is full rank (over an
exact field: nonzero determinant), and the all-zero null model otherwise. -/
def beta_hat_of {n k : ℕ} (x : Matrix (Fin n) (Fin k) ℚ) (y : Fin n → ℚ)
    (l : List (Fin k)) : Fin l.length → ℚ :=
  if detQ (selected_gram x l) ≠ 0 then
    solveLinear (selected_gram x l) (selected_xty x y l)
  else fun _ => 0

/-- Embedding of `recalculate_betas_from_selected` (lines 257-296): the
length-k vector `best_betas` that holds the estimated coefficient at each
selected position and zero at each unselected one. -/
def recalculate_betas_from_selected {n k : ℕ} (x : Matrix (Fin n) (Fin k) ℚ)
    (y : Fin n → ℚ) (idx : Option (Fin k → Bool)) : Fin k → ℚ :=
  fun j =>
    if h : j ∈ selected_of idx then
      beta_hat_of x y (selected_of idx)
        ⟨(selected_of idx).indexOf j, List.indexOf_lt_length.mpr h⟩
    else 0

/-- Embedding of `sigma_squared` (line 348): sample variance, with one
delta degree of freedom, of the residual `y - x @ betas`. -/
def sigma_squared {n k : ℕ} (x : Matrix (Fin n) (Fin k) ℚ) (y : Fin n → ℚ)
    (betas : Fin k → ℚ) : ℚ :=
  var_ddof1 (fun i => y i - x.mulVec betas i)

/-- Exact value of `np.finfo(float).eps`, the double-precision machine
epsilon. -/
def machEps : ℚ := 1 / 2 ^ 52

/-- Coefficients of one leave-one-out refit inside
`predict_error_reduction` (lines 327-334): the try block solves the normal
equations of the leave-out column set with `scipy.linalg.solve`; the except
arm returns the all-zero vector when the system is singular (over an exact
field: zero determinant). -/
def leaveout_beta_hat {n k : ℕ} (x : Matrix (Fin n) (Fin k) ℚ)
    (y : Fin n → ℚ) (leave_out : List (Fin k)) : Fin leave_out.length → ℚ :=
  if detQ (selected_gram x leave_out) = 0 then fun _ => 0
  else solveLinear (selected_gram x leave_out) (selected_xty x y leave_out)

/-- Residual sample variance `ss_leaveout` of the refit that drops the
predictor `lost` from the selected index list (lines 327-337). -/
def ss_leaveout_of {n k : ℕ} (x : Matrix (Fin n) (Fin k) ℚ) (y : Fin n → ℚ)
    (pp_idx : List (Fin k)) (lost : Fin k) : ℚ :=
  sigma_squared (submatrix_cols x (pp_idx.erase lost)) y
    (leaveout_beta_hat x y (pp_idx.erase lost))

/-- Score written at position `lost` by the leave-one-out loop (lines
339-343): forced to zero when `ss_all` and `ss_leaveout` agree to within
machine epsilon scaled by the number of selected predictors, and
`1 - ss_all / ss_leaveout` otherwise. -/
def leaveout_score {n k : ℕ} (x : Matrix (Fin n) (Fin k) ℚ) (y : Fin n → ℚ)
    (ss_all : ℚ) (pp_idx : List (Fin k)) (lost : Fin k) : ℚ :=
  if |ss_all - ss_leaveout_of x y pp_idx lost| <
      machEps * (pp_idx.length : ℚ) then 0
  else 1 - ss_all / ss_leaveout_of x y pp_idx lost

/-- Embedding of `predict_error_reduction` (lines 299-345).  The index
list `pp_idx` of nonzero betas is duplicate free, so popping the element at
position `pp_i` of a copy of `pp_idx` is the same as erasing the lost
predictor from `pp_idx`, and the loop writes each selected position exactly
once; unselected positions keep the zero the output array was created
with. -/
def predict_error_reduction {n k : ℕ} (x : Matrix (Fin n) (Fin k) ℚ)
    (y : Fin n → ℚ) (betas : Fin k → ℚ) : Fin k → ℚ :=
  if (index_of_nonzeros betas).length = 1 then
    fun j =>
      if j ∈ index_of_nonzeros betas then
        1 - sigma_squared x y betas / var_ddof1 y
      else 0
  else
    fun j =>
      if j ∈ index_of_nonzeros betas then
        leaveout_score x y (sigma_squared x y betas)
          (index_of_nonzeros betas) j
      else 0

/-- Embedding of `remove_gene_from_activity` (lines 373-405).  The
expression vector and the prior row come with their own sizes `m` and `p`;
the function raises a `ValueError` when `m` differs from the sample count
`n` or `p` differs from the predictor count `k`, and otherwise subtracts
the outer product of the two vectors from the activity matrix. -/
def remove_gene_from_activity {n k m p : ℕ}
    (activity_data : Matrix (Fin n) (Fin k) ℚ)
    (gene_expression_data : Fin m → ℚ) (prior_data : Fin p → ℚ) :
    Except String (Matrix (Fin n) (Fin k) ℚ) :=
  if hm : m = n then
    if hp : p = k then
      .ok (fun i j =>
        activity_data i j -
          gene_expression_data (Fin.cast hm.symm i) *
            prior_data (Fin.cast hp.symm j))
    else .error "Prior data expected size k"
  else .error "Gene expression data expected size n"

/-- Boolean error discriminator for `Except` values. -/
def isErr {ε α : Type} : Except ε α → Bool
  | .error _ => true
  | .ok _ => false

/-- Embedding of `PreprocessData.gene_preprocess` (lines 186-209).
Modelled from the spec: the scaling helpers `scale_array` and
`scale_vector` live in `inferelator.utils`, outside the excerpt; per the
spec they standardize a matrix (respectively a vector) and never raise, so
they are abstracted here as arbitrary total functions `scaleA` and
`scaleV`.  The prior row `prior_row` stands for
`prior_data.loc[gene, :].values.flatten()`.  When circularity removal is
enabled the function rebuilds the activity with
`remove_gene_from_activity` (which validates dimensions) and scales it in
place; otherwise it only scales a copy, with no dimension validation. -/
def gene_preprocess {n k m p : ℕ} (remove_circularity : Bool)
    (scaleA : Matrix (Fin n) (Fin k) ℚ → Matrix (Fin n) (Fin k) ℚ)
    (scaleV : (Fin m → ℚ) → (Fin m → ℚ))
    (X : Matrix (Fin n) (Fin k) ℚ) (Y : Fin m → ℚ) (prior_row : Fin p → ℚ) :
    Except String (Matrix (Fin n) (Fin k) ℚ × (Fin m → ℚ)) :=
  if remove_circularity then
    match remove_gene_from_activity X Y prior_row with
    | .error e => .error e
    | .ok X2 => .ok (scaleA X2, scaleV Y)
  else
    .ok (scaleA X, scaleV Y)

/-- Global numpy random state, as owned by the bootstrap orchestrator:
`none` when never seeded, `some s` after `np.random.seed(s)`. -/
structure RandomState where
  seed : Option ℤ
deriving DecidableEq

/-- Effect of `np.random.seed(s)` on the global state. -/
def np_random_seed (s : ℤ) (_ : RandomState) : RandomState := ⟨some s⟩

/-- Loop body of `_RegressionWorkflowMixin.run_regression` (lines
135-147), over the enumerated bootstrap list: each iteration reseeds the
global state to `random_seed + idx`, invokes `run_bootstrap` (modelled as a
state transformer returning the pair of result matrices) and appends the
two results. -/
def run_regression_loop {α γ : Type} (random_seed : ℤ)
    (run_bootstrap : RandomState → α → RandomState × γ × γ) :
    RandomState → ℕ → List α → RandomState × List γ × List γ
  | s, _, [] => (s, [], [])
  | s, idx, b :: rest =>
    let s1 := np_random_seed (random_seed + (idx : ℤ)) s
    let r := run_bootstrap s1 b
    let tail := run_regression_loop random_seed run_bootstrap r.1 (idx + 1) rest
    (tail.1, r.2.1 :: tail.2.1, r.2.2 :: tail.2.2)

/-- Embedding of the single-task `run_regression` (lines 135-147). -/
def run_regression_single {α γ : Type} (random_seed : ℤ)
    (bootstraps : List α)
    (run_bootstrap : RandomState → α → RandomState × γ × γ)
    (s0 : RandomState) : RandomState × List γ × List γ :=
  run_regression_loop random_seed run_bootstrap s0 0 bootstraps

/-- Sequence of `(betas, rescaled)` pairs produced by calling
`run_bootstrap` once per iteration with the state reseeded to
`random_seed + idx` right before each call. -/
def seeded_outputs {α γ : Type} (random_seed : ℤ)
    (run_bootstrap : RandomState → α → RandomState × γ × γ) :
    ℕ → List α → List (γ × γ)
  | _, [] => []
  | idx, b :: rest =>
    (run_bootstrap ⟨some (random_seed + (idx : ℤ))⟩ b).2 ::
      seeded_outputs random_seed run_bootstrap (idx + 1) rest

/-- Loop body of `_MultitaskRegressionWorkflowMixin.run_regression` (lines
159-172), counting `fuel` remaining iterations from index `idx`: each
iteration invokes `run_bootstrap` on the iteration index (the loop performs
no reseed) and appends, for each task `k` below `n_tasks`, the task entry
of the returned per-task results to the per-task output lists. -/
def run_regression_multitask_loop {γ : Type} (n_tasks : ℕ)
    (run_bootstrap : RandomState → ℕ → RandomState × (ℕ → γ) × (ℕ → γ)) :
    RandomState → ℕ → ℕ → RandomState × List (List γ) × List (List γ)
  | s, _, 0 => (s, List.replicate n_tasks [], List.replicate n_tasks [])
  | s, idx, fuel + 1 =>
    let r := run_bootstrap s idx
    let tail := run_regression_multitask_loop n_tasks run_bootstrap r.1
      (idx + 1) fuel
    (tail.1,
      List.zipWith (fun c t => c :: t)
        ((List.range n_tasks).map r.2.1) tail.2.1,
      List.zipWith (fun c t => c :: t)
        ((List.range n_tasks).map r.2.2) tail.2.2)

/-- Embedding of the multitask `run_regression` (lines 159-172). -/
def run_regression_multitask {γ : Type} (n_tasks num_bootstraps : ℕ)
    (run_bootstrap : RandomState → ℕ → RandomState × (ℕ → γ) × (ℕ → γ))
    (s0 : RandomState) : RandomState × List (List γ) × List (List γ) :=
  run_regression_multitask_loop n_tasks run_bootstrap s0 0 num_bootstraps

/-- Per-iteration outputs of the multitask loop, with the random state
threaded unchanged from one `run_bootstrap` call into the next (no
reseed). -/
def multitask_outputs {γ : Type}
    (run_bootstrap : RandomState → ℕ → RandomState × (ℕ → γ) × (ℕ → γ)) :
    RandomState → ℕ → ℕ → List ((ℕ → γ) × (ℕ → γ))
  | _, _, 0 => []
  | s, idx, fuel + 1 =>
    (run_bootstrap s idx).2 ::
      multitask_outputs run_bootstrap (run_bootstrap s idx).1 (idx + 1) fuel

/-- Result dict produced by one per-gene regression, as consumed by
`pileup_data` (lines 77-101): the response row index `ind`, the boolean
selection mask `pp` over the K predictors, and the packed coefficient and
rescaled-score values for the selected positions, in mask order. -/
structure FitResult (G K : ℕ) where
  ind : Fin G
  pp : Fin K → Bool
  betas : List ℚ
  betas_resc : List ℚ
deriving DecidableEq

/-- Numpy boolean-mask row assignment `arr[ind, pp] = vals` on a G x K
array: position `(ind, j)` with `pp j` true receives the packed value at
the rank of `j` among the true positions; every other entry is kept. -/
def mask_assign {G K : ℕ} (M : Matrix (Fin G) (Fin K) ℚ) (ind : Fin G)
    (pp : Fin K → Bool) (vals : List ℚ) : Matrix (Fin G) (Fin K) ℚ :=
  fun g j =>
    if g = ind ∧ pp j then vals.getD ((bool_to_index pp).indexOf j) 0
    else M g j

/-- One step of the `pileup_data` loop (lines 92-101): a `None` entry
raises `RuntimeError`; a dict entry whose packed values do not match the
mask size raises a numpy broadcast error; otherwise the entry's row is
written into both accumulator arrays. -/
def pileup_step {G K : ℕ}
    (acc : Matrix (Fin G) (Fin K) ℚ × Matrix (Fin G) (Fin K) ℚ)
    (d : Option (FitResult G K)) :
    Except String (Matrix (Fin G) (Fin K) ℚ × Matrix (Fin G) (Fin K) ℚ) :=
  match d with
  | none => .error "No model produced by regression method"
  | some e =>
    if e.betas.length = (bool_to_index e.pp).length ∧
        e.betas_resc.length = (bool_to_index e.pp).length then
      .ok (mask_assign acc.1 e.ind e.pp e.betas,
        mask_assign acc.2 e.ind e.pp e.betas_resc)
    else .error "could not broadcast input array"

/-- Fold of `pileup_step` over the run data, aborting at the first
raise. -/
def pileup_loop {G K : ℕ} :
    Matrix (Fin G) (Fin K) ℚ × Matrix (Fin G) (Fin K) ℚ →
    List (Option (FitResult G K)) →
    Except String (Matrix (Fin G) (Fin K) ℚ × Matrix (Fin G) (Fin K) ℚ)
  | acc, [] => .ok acc
  | acc, d :: rest =>
    match pileup_step acc d with
    | .error e => .error e
    | .ok acc2 => pileup_loop acc2 rest

/-- Labeled numeric matrix, standing for the returned
`pd.DataFrame(arr, index=..., columns=...)`. -/
structure LabeledMatrix (G K : ℕ) where
  index : Fin G → String
  columns : Fin K → String
  values : Matrix (Fin G) (Fin K) ℚ
deriving DecidableEq

/-- Embedding of `BaseRegression.pileup_data` (lines 77-113): two G x K
zero arrays are populated from the run data and returned as matrices
row-labeled by the response identifiers and column-labeled by the
predictor identifiers. -/
def pileup_data {G K : ℕ} (genes : Fin G → String) (tfs : Fin K → String)
    (run_data : List (Option (FitResult G K))) :
    Except String (LabeledMatrix G K × LabeledMatrix G K) :=
  match pileup_loop (fun _ _ => 0, fun _ _ => 0) run_data with
  | .error e => .error e
  | .ok (b, br) => .ok (⟨genes, tfs, b⟩, ⟨genes, tfs, br⟩)

/-- Value at `(g, j)` after the run-data entries of `l` have been written
over a starting matrix `M`, assuming one entry per response row: the packed
value of the entry for row `g` (read through the selector `sel`) when that
entry's mask covers `j`, and the starting value otherwise. -/
def entry_or {G K : ℕ} (l : List (FitResult G K))
    (sel : FitResult G K → List ℚ) (M : Matrix (Fin G) (Fin K) ℚ)
    (g : Fin G) (j : Fin K) : ℚ :=
  (l.find? (fun e => decide (e.ind = g))).elim (M g j)
    (fun e =>
      if e.pp j then (sel e).getD ((bool_to_index e.pp).indexOf j) 0
      else M g j)

/-- Value at `(g, j)` determined by the unique run-data entry for response
row `g`, reading the packed values through the selector `sel`: zero when no
entry has index `g` or when the entry's mask does not cover `j`. -/
def lookup_val {G K : ℕ} (l : List (FitResult G K))
    (sel : FitResult G K → List ℚ) (g : Fin G) (j : Fin K) : ℚ :=
  entry_or l sel (fun _ _ => 0) g j

/-! ### Concrete inputs for witnesses and counterexamples -/

/-- Concrete 1 x 1 all-zero activity matrix: its Gram matrix is singular. -/
def wZeroX : Matrix (Fin 1) (Fin 1) ℚ := fun _ _ => 0

/-- Concrete length-1 response vector. -/
def wY1 : Fin 1 → ℚ := fun _ => 1

/-- Concrete 1 x 1 activity matrix with a full-rank Gram matrix. -/
def wX1 : Matrix (Fin 1) (Fin 1) ℚ := fun _ _ => 2

/-- Concrete length-2 response vector. -/
def wY2 : Fin 2 → ℚ := fun i => if i = 0 then 3 else 5

/-- Concrete 2 x 2 identity activity matrix. -/
def wX2 : Matrix (Fin 2) (Fin 2) ℚ := fun i j => if i = j then 1 else 0

/-- Betas vector selecting exactly one predictor. -/
def wBetaSingle : Fin 2 → ℚ := fun j => if j = 0 then 1 else 0

/-- Betas vector selecting both predictors. -/
def wBetaBoth : Fin 2 → ℚ := fun _ => 1

/-- Concrete response label list for one gene. -/
def wGenes : Fin 1 → String := fun _ => "gene0"

/-- Concrete predictor label list for one transcription factor. -/
def wTfs : Fin 1 → String := fun _ => "tf0"

/-- Fit result that selects zero predictors (a null model). -/
def wNullFit : FitResult 1 1 := ⟨0, fun _ => false, [], []⟩

/-- Fit result for response row 0 of a two-gene pileup. -/
def wFitA : FitResult 2 1 := ⟨0, fun _ => true, [1], [2]⟩

/-- Fit result for response row 1 of a two-gene pileup. -/
def wFitB : FitResult 2 1 := ⟨1, fun _ => true, [3], [4]⟩

/-- Concrete response label list for two genes. -/
def wGenes2 : Fin 2 → String := fun i => if i = 0 then "geneA" else "geneB"

/-- Concrete 1 x 1 activity matrix for the outer-product witness. -/
def wAct : Matrix (Fin 1) (Fin 1) ℚ := fun _ _ => 5

/-- Concrete expression vector of the matching length. -/
def wGeneExpr : Fin 1 → ℚ := fun _ => 2

/-- Concrete prior row of the matching length. -/
def wPrior : Fin 1 → ℚ := fun _ => 3

/-- Concrete expression vector of the wrong length. -/
def wGeneExprBad : Fin 2 → ℚ := fun _ => 2

/-- Instrumented multitask `run_bootstrap` that reports, as its per-task
result, the random state it was invoked on. -/
def rb_probe : RandomState → ℕ →
    RandomState × (ℕ → RandomState) × (ℕ → RandomState) :=
  fun s _ => (s, fun _ => s, fun _ => s)

/-! ### Bridge lemmas for the executable linear algebra -/

theorem detQ_eq {m : ℕ} (A : Matrix (Fin m) (Fin m) ℚ) : detQ A = A.det := by
  induction m with
  | zero => simp [detQ]
  | succ m ih =>
    rw [Matrix.det_succ_row_zero]
    simp only [detQ]
    exact Finset.sum_congr rfl fun j _ => by rw [ih]

theorem cramerQ_eq {m : ℕ} (A : Matrix (Fin m) (Fin m) ℚ) (b : Fin m → ℚ) :
    cramerQ A b = Matrix.cramer A b := by
  funext j
  rw [cramerQ, detQ_eq, Matrix.cramer_apply]

/-- Key property of `solveLinear`: on a nonsingular system it solves the
system. -/
theorem solveLinear_mulVec {m : ℕ} {A : Matrix (Fin m) (Fin m) ℚ}
    (hA : detQ A ≠ 0) (b : Fin m → ℚ) :
    A.mulVec (solveLinear A b) = b := by
  rw [detQ_eq] at hA
  rw [solveLinear, cramerQ_eq, detQ_eq, Matrix.mulVec_smul,
    Matrix.mulVec_cramer, smul_smul, inv_mul_cancel₀ hA, one_smul]

/-- Uniqueness of the solution of a nonsingular system. -/
theorem solveLinear_unique {m : ℕ} {A : Matrix (Fin m) (Fin m) ℚ}
    (hA : detQ A ≠ 0) {b : Fin m → ℚ} {v : Fin m → ℚ}
    (hv : A.mulVec v = b) : v = solveLinear A b := by
  have hA' : IsUnit A.det := by
    rw [detQ_eq] at hA
    exact isUnit_iff_ne_zero.mpr hA
  have hinj : Function.Injective A.mulVec :=
    Matrix.mulVec_injective_iff_isUnit.mpr
      ((Matrix.isUnit_iff_isUnit_det A).mpr hA')
  exact hinj (by rw [hv, solveLinear_mulVec hA b])

/-! ### List helper lemmas -/

theorem mem_bool_to_index {k : ℕ} {arr : Fin k → Bool} {j : Fin k} :
    j ∈ bool_to_index arr ↔ arr j = true := by
  simp [bool_to_index, List.mem_filter, List.mem_finRange]

theorem bool_to_index_nodup {k : ℕ} (arr : Fin k → Bool) :
    (bool_to_index arr).Nodup :=
  (List.nodup_finRange k).filter _

theorem mem_index_of_nonzeros {k : ℕ} {arr : Fin k → ℚ} {j : Fin k} :
    j ∈ index_of_nonzeros arr ↔ arr j ≠ 0 := by
  simp [index_of_nonzeros, List.mem_filter, List.mem_finRange]

theorem index_of_nonzeros_nodup {k : ℕ} (arr : Fin k → ℚ) :
    (index_of_nonzeros arr).Nodup :=
  (List.nodup_finRange k).filter _

theorem selected_of_nodup {k : ℕ} (idx : Option (Fin k → Bool)) :
    (selected_of idx).Nodup :=
  bool_to_index_nodup _

/-- Reading `recalculate_betas_from_selected` back at the i-th selected
position recovers the i-th estimated coefficient. -/
theorem recalculate_betas_get {n k : ℕ} (x : Matrix (Fin n) (Fin k) ℚ)
    (y : Fin n → ℚ) (idx : Option (Fin k → Bool))
    (i : Fin (selected_of idx).length) :
    recalculate_betas_from_selected x y idx ((selected_of idx).get i) =
      beta_hat_of x y (selected_of idx) i := by
  have hmem : (selected_of idx).get i ∈ selected_of idx :=
    List.get_mem (selected_of idx) i.1 i.2
  rw [recalculate_betas_from_selected, dif_pos hmem]
  congr 1
  exact Fin.ext (List.get_indexOf (selected_of_nodup idx) i)

/-! ### Claim C1 -/

/-- C1: whenever the Gram matrix of the selected predictors is singular
(rank-deficient, which over an exact field is a zero determinant), the fit
resolves to the all-zero coefficient vector — of length K for the primary
fit of `recalculate_betas_from_selected`, and of the leave-out length for
each singular leave-one-out refit inside `predict_error_reduction` — and,
both branches being total, no exception is raised. -/
theorem rank_deficient_null_model {n k : ℕ} (x : Matrix (Fin n) (Fin k) ℚ)
    (y : Fin n → ℚ) :
    (∀ idx : Option (Fin k → Bool),
      detQ (selected_gram x (selected_of idx)) = 0 →
        recalculate_betas_from_selected x y idx = fun _ => 0)
  ∧ (∀ leave_out : List (Fin k),
      detQ (selected_gram x leave_out) = 0 →
        leaveout_beta_hat x y leave_out = fun _ => 0) := by
  constructor
  · intro idx hdet
    funext j
    rw [recalculate_betas_from_selected]
    split
    · rw [beta_hat_of, if_neg (by simpa using hdet)]
    · rfl
  · intro leave_out hdet
    rw [leaveout_beta_hat, if_pos hdet]

/-! ### Claim C3 -/

/-- C3: when the Gram matrix of the selected predictors is full rank (over
an exact field: nonzero determinant), `recalculate_betas_from_selected`
returns a length-K vector whose restriction to the selected positions is
the unique solution of the normal equations of the selected columns — the
ordinary-least-squares solution — and which is exactly zero at every
unselected predictor; passing `idx = none` behaves as the all-true mask
over the K predictors. -/
theorem recalculate_betas_ols {n k : ℕ} (x : Matrix (Fin n) (Fin k) ℚ)
    (y : Fin n → ℚ) (idxb : Fin k → Bool)
    (hdet : detQ (selected_gram x (selected_of (some idxb))) ≠ 0) :
    (selected_gram x (selected_of (some idxb))).mulVec
        (fun i => recalculate_betas_from_selected x y (some idxb)
          ((selected_of (some idxb)).get i)) =
      selected_xty x y (selected_of (some idxb))
  ∧ (∀ v, (selected_gram x (selected_of (some idxb))).mulVec v =
        selected_xty x y (selected_of (some idxb)) →
      v = fun i => recalculate_betas_from_selected x y (some idxb)
        ((selected_of (some idxb)).get i))
  ∧ (∀ j, idxb j = false →
      recalculate_betas_from_selected x y (some idxb) j = 0)
  ∧ recalculate_betas_from_selected x y none =
      recalculate_betas_from_selected x y (some (fun _ => true)) := by
  have hbh : (fun i => recalculate_betas_from_selected x y (some idxb)
      ((selected_of (some idxb)).get i)) =
        beta_hat_of x y (selected_of (some idxb)) := by
    funext i
    exact recalculate_betas_get x y (some idxb) i
  have hsolve : beta_hat_of x y (selected_of (some idxb)) =
      solveLinear (selected_gram x (selected_of (some idxb)))
        (selected_xty x y (selected_of (some idxb))) := by
    rw [beta_hat_of, if_pos hdet]
  refine ⟨?_, ?_, ?_, rfl⟩
  · rw [hbh, hsolve]
    exact solveLinear_mulVec hdet _
  · intro v hv
    rw [hbh, hsolve]
    exact solveLinear_unique hdet hv
  · intro j hj
    rw [recalculate_betas_from_selected]
    rw [dif_neg]
    intro hmem
    have : idxb j = true := mem_bool_to_index.mp hmem
    rw [this] at hj
    cases hj

/-! ### Claim C10 -/

/-- C10: calling `predict_error_reduction` with an all-zero betas vector
selects no predictors, so neither the single-predictor path nor the
leave-one-out loop runs: the zero-initialized score array is returned
unchanged, and the (total) function raises nothing. -/
theorem predict_error_reduction_all_zero {n k : ℕ}
    (x : Matrix (Fin n) (Fin k) ℚ) (y : Fin n → ℚ) (betas : Fin k → ℚ)
    (hz : ∀ j, betas j = 0) :
    predict_error_reduction x y betas = fun _ => 0 := by
  have hpp : (index_of_nonzeros betas).length = 0 := by
    rw [List.length_eq_zero, List.eq_nil_iff_forall_not_mem]
    intro j hj
    exact (mem_index_of_nonzeros.mp hj) (hz j)
  rw [predict_error_reduction, if_neg (by rw [hpp]; exact one_ne_zero ∘ Eq.symm)]
  funext j
  rw [if_neg]
  intro hj
  exact (mem_index_of_nonzeros.mp hj) (hz j)

/-! ### Claim C2 -/

/-- C2: the two-path design of `predict_error_reduction`.  With exactly one
selected predictor the score at the selected position is
`1 - ss_all / var(y, ddof=1)` with no refit, zero elsewhere; with two or
more selected predictors each selected position receives
`1 - ss_all / ss_leaveout`, forced to exactly zero when `ss_all` and
`ss_leaveout` differ by less than machine epsilon scaled by the number of
selected predictors, zero elsewhere; and the leave-one-out refit whose
residual variance `ss_leaveout` measures is the ordinary-least-squares
solution of the leave-out normal equations (solving them uniquely) whenever
that system is nonsingular. -/
theorem predict_error_reduction_two_paths {n k : ℕ}
    (x : Matrix (Fin n) (Fin k) ℚ) (y : Fin n → ℚ) (betas : Fin k → ℚ) :
    ((index_of_nonzeros betas).length = 1 →
      ∀ j, predict_error_reduction x y betas j =
        if j ∈ index_of_nonzeros betas then
          1 - sigma_squared x y betas / var_ddof1 y
        else 0)
  ∧ (2 ≤ (index_of_nonzeros betas).length →
      ∀ j, predict_error_reduction x y betas j =
        if j ∈ index_of_nonzeros betas then
          (if |sigma_squared x y betas -
              ss_leaveout_of x y (index_of_nonzeros betas) j| <
              machEps * ((index_of_nonzeros betas).length : ℚ) then 0
           else 1 - sigma_squared x y betas /
              ss_leaveout_of x y (index_of_nonzeros betas) j)
        else 0)
  ∧ (∀ lost ∈ index_of_nonzeros betas,
      detQ (selected_gram x ((index_of_nonzeros betas).erase lost)) ≠ 0 →
        (selected_gram x ((index_of_nonzeros betas).erase lost)).mulVec
            (leaveout_beta_hat x y ((index_of_nonzeros betas).erase lost)) =
          selected_xty x y ((index_of_nonzeros betas).erase lost)
        ∧ ∀ v, (selected_gram x
              ((index_of_nonzeros betas).erase lost)).mulVec v =
            selected_xty x y ((index_of_nonzeros betas).erase lost) →
          v = leaveout_beta_hat x y
            ((index_of_nonzeros betas).erase lost)) := by
  refine ⟨?_, ?_, ?_⟩
  · intro h1 j
    rw [predict_error_reduction, if_pos h1]
  · intro h2 j
    rw [predict_error_reduction, if_neg (by omega)]
    by_cases hj : j ∈ index_of_nonzeros betas
    · rw [if_pos hj, if_pos hj, leaveout_score]
    · rw [if_neg hj, if_neg hj]
  · intro lost _ hdet
    have hbh : leaveout_beta_hat x y ((index_of_nonzeros betas).erase lost) =
        solveLinear (selected_gram x ((index_of_nonzeros betas).erase lost))
          (selected_xty x y ((index_of_nonzeros betas).erase lost)) := by
      rw [leaveout_beta_hat, if_neg hdet]
    refine ⟨?_, ?_⟩
    · rw [hbh]
      exact solveLinear_mulVec hdet _
    · intro v hv
      rw [hbh]
      exact solveLinear_unique hdet hv

/-! ### Claim C9 -/

/-- C9: `remove_gene_from_activity` subtracts the outer product of the
expression vector and the prior row from the activity matrix when the
vector sizes match the sample count and the predictor count, and raises a
`ValueError` when either size differs. -/
theorem remove_gene_outer_product {n k m p : ℕ}
    (activity : Matrix (Fin n) (Fin k) ℚ) (g : Fin m → ℚ) (pr : Fin p → ℚ) :
    (∀ (hm : m = n) (hp : p = k),
      remove_gene_from_activity activity g pr =
        .ok (fun i j => activity i j -
          g (Fin.cast hm.symm i) * pr (Fin.cast hp.symm j)))
  ∧ (m ≠ n → isErr (remove_gene_from_activity activity g pr) = true)
  ∧ (m = n → p ≠ k →
      isErr (remove_gene_from_activity activity g pr) = true) := by
  refine ⟨?_, ?_, ?_⟩
  · intro hm hp
    rw [remove_gene_from_activity, dif_pos hm, dif_pos hp]
  · intro hm
    rw [remove_gene_from_activity, dif_neg hm]
    rfl
  · intro hm hp
    rw [remove_gene_from_activity, dif_pos hm, dif_neg hp]
    rfl

/-! ### Claim C6 -/

/-- C6 (amended): `gene_preprocess` validates dimensions only on the
circularity-removal path.  When circularity removal is enabled it raises a
dimension error exactly when the response length differs from the sample
count or the prior-row length differs from the predictor count, and
otherwise returns the rebuilt, scaled matrices; when circularity removal is
disabled it performs no dimension validation at all and always returns the
scaled inputs unchanged in shape (nothing is truncated or padded: the
output dimensions are the input dimensions). -/
theorem gene_preprocess_dimension_check {n k m p : ℕ}
    (scaleA : Matrix (Fin n) (Fin k) ℚ → Matrix (Fin n) (Fin k) ℚ)
    (scaleV : (Fin m → ℚ) → (Fin m → ℚ))
    (X : Matrix (Fin n) (Fin k) ℚ) (Y : Fin m → ℚ) (P : Fin p → ℚ) :
    (m ≠ n → isErr (gene_preprocess true scaleA scaleV X Y P) = true)
  ∧ (m = n → p ≠ k →
      isErr (gene_preprocess true scaleA scaleV X Y P) = true)
  ∧ (∀ (hm : m = n) (hp : p = k),
      gene_preprocess true scaleA scaleV X Y P =
        .ok (scaleA (fun i j => X i j -
          Y (Fin.cast hm.symm i) * P (Fin.cast hp.symm j)), scaleV Y))
  ∧ gene_preprocess false scaleA scaleV X Y P = .ok (scaleA X, scaleV Y) := by
  refine ⟨?_, ?_, ?_, rfl⟩
  · intro hm
    rw [gene_preprocess, if_pos rfl, remove_gene_from_activity, dif_neg hm]
    rfl
  · intro hm hp
    rw [gene_preprocess, if_pos rfl, remove_gene_from_activity, dif_pos hm,
      dif_neg hp]
    rfl
  · intro hm hp
    rw [gene_preprocess, if_pos rfl, remove_gene_from_activity, dif_pos hm,
      dif_pos hp]

/-! ### Claim C5 -/

theorem run_regression_loop_eq {α γ : Type} (random_seed : ℤ)
    (rb : RandomState → α → RandomState × γ × γ) (s : RandomState)
    (idx : ℕ) (l : List α) :
    (run_regression_loop random_seed rb s idx l).2 =
      ((seeded_outputs random_seed rb idx l).map Prod.fst,
       (seeded_outputs random_seed rb idx l).map Prod.snd) := by
  induction l generalizing s idx with
  | nil => rfl
  | cons b rest ih =>
    simp only [run_regression_loop, seeded_outputs, np_random_seed,
      List.map_cons]
    rw [ih]

theorem run_regression_multitask_loop_eq {γ : Type} (n_tasks : ℕ)
    (rb : RandomState → ℕ → RandomState × (ℕ → γ) × (ℕ → γ))
    (s : RandomState) (idx fuel : ℕ) :
    (run_regression_multitask_loop n_tasks rb s idx fuel).2 =
      ((List.range n_tasks).map (fun t =>
          (multitask_outputs rb s idx fuel).map (fun o => o.1 t)),
       (List.range n_tasks).map (fun t =>
          (multitask_outputs rb s idx fuel).map (fun o => o.2 t))) := by
  induction fuel generalizing s idx with
  | zero =>
    simp only [run_regression_multitask_loop, multitask_outputs,
      List.map_nil]
    rw [List.map_const', List.length_range]
  | succ f ih =>
    simp only [run_regression_multitask_loop, multitask_outputs,
      List.map_cons]
    rw [ih]
    refine congrArg₂ Prod.mk ?_ ?_ <;>
    · rw [List.zipWith_map_left, List.zipWith_map_right, List.zipWith_same]

/-- C5 (amended): the single-task `run_regression` reseeds the global
random state to `random_seed + idx` immediately before each
`run_bootstrap` call, so its outputs are exactly the per-iteration results
of `run_bootstrap` invoked on the freshly reseeded state, collected in
bootstrap order; the multitask `run_regression` runs the same per-iteration
loop and collects one entry per task (task-major, bootstrap-minor), but
performs no reseed: the random state each of its `run_bootstrap` calls
observes is whatever the previous call left behind, starting from the
inherited state. -/
theorem run_regression_seeding {α γ : Type} (random_seed : ℤ)
    (bootstraps : List α)
    (rb_single : RandomState → α → RandomState × γ × γ)
    (rb_multi : RandomState → ℕ → RandomState × (ℕ → γ) × (ℕ → γ))
    (n_tasks num_bootstraps : ℕ) (s0 : RandomState) :
    (run_regression_single random_seed bootstraps rb_single s0).2 =
      ((seeded_outputs random_seed rb_single 0 bootstraps).map Prod.fst,
       (seeded_outputs random_seed rb_single 0 bootstraps).map Prod.snd)
  ∧ (run_regression_multitask n_tasks num_bootstraps rb_multi s0).2 =
      ((List.range n_tasks).map (fun t =>
          (multitask_outputs rb_multi s0 0 num_bootstraps).map
            (fun o => o.1 t)),
       (List.range n_tasks).map (fun t =>
          (multitask_outputs rb_multi s0 0 num_bootstraps).map
            (fun o => o.2 t))) :=
  ⟨run_regression_loop_eq random_seed rb_single s0 0 bootstraps,
   run_regression_multitask_loop_eq n_tasks rb_multi s0 0 num_bootstraps⟩

/-! ### Pileup characterization -/

/-- A list whose first match for `p` is pinned down by uniqueness: if `e`
is a member satisfying `p` and every member satisfying `p` equals `e`, then
the first match is `e`. -/
theorem find_eq_some_of_unique {α : Type} {p : α → Bool} {l : List α}
    {e : α} (he : e ∈ l) (hp : p e = true)
    (hu : ∀ a ∈ l, p a = true → a = e) : l.find? p = some e := by
  induction l with
  | nil => cases he
  | cons a t ih =>
    by_cases h : p a = true
    · rw [List.find?_cons_of_pos _ h]
      exact congrArg some (hu a (List.mem_cons_self a t) h)
    · rw [List.find?_cons_of_neg _ h]
      rcases List.mem_cons.mp he with rfl | hmem
      · exact absurd hp h
      · exact ih hmem fun a' ha' => hu a' (List.mem_cons_of_mem _ ha')

/-- Distinct response indices pin each entry down: two members of a
run-data list with duplicate-free indices agreeing on `ind` are equal. -/
theorem fitresult_unique {G K : ℕ} {l : List (FitResult G K)}
    (hnd : (l.map FitResult.ind).Nodup) {e1 e2 : FitResult G K}
    (h1 : e1 ∈ l) (h2 : e2 ∈ l) (heq : e1.ind = e2.ind) : e1 = e2 :=
  List.inj_on_of_nodup_map hnd h1 h2 heq

/-- Writing the head entry of a duplicate-free run-data list into the
accumulator and then folding the tail is the same as folding the whole
list. -/
theorem entry_or_cons {G K : ℕ} (e : FitResult G K)
    (rest : List (FitResult G K)) (sel : FitResult G K → List ℚ)
    (M : Matrix (Fin G) (Fin K) ℚ)
    (hnd : ((e :: rest).map FitResult.ind).Nodup) (g : Fin G) (j : Fin K) :
    entry_or rest sel (mask_assign M e.ind e.pp (sel e)) g j =
      entry_or (e :: rest) sel M g j := by
  by_cases hg : e.ind = g
  · have hdec : (decide (e.ind = g)) = true := decide_eq_true hg
    have hnone : rest.find? (fun e' => decide (e'.ind = g)) = none := by
      rw [List.find?_eq_none]
      intro x hx hpx
      have hni : e.ind ∉ rest.map FitResult.ind := by
        simpa using (List.nodup_cons.mp hnd).1
      have hxg : x.ind = g := of_decide_eq_true hpx
      exact hni (by
        rw [hg, ← hxg]
        exact List.mem_map_of_mem _ hx)
    rw [entry_or, entry_or]
    simp only [List.find?_cons, hdec, hnone]
    simp only [Option.elim_none, Option.elim_some]
    rw [mask_assign]
    subst hg
    by_cases hpj : e.pp j
    · rw [if_pos ⟨rfl, hpj⟩, if_pos hpj]
    · rw [if_neg (fun h => hpj h.2), if_neg hpj]
  · have hdec : (decide (e.ind = g)) = false := decide_eq_false hg
    rw [entry_or, entry_or]
    simp only [List.find?_cons, hdec]
    cases hf : rest.find? (fun e' => decide (e'.ind = g)) with
    | some e' =>
      simp only [Option.elim_some]
      by_cases hpj : e'.pp j
      · rw [if_pos hpj, if_pos hpj]
      · rw [if_neg hpj, if_neg hpj, mask_assign,
          if_neg (fun h => hg h.1.symm)]
    | none =>
      simp only [Option.elim_none]
      rw [mask_assign, if_neg (fun h => hg h.1.symm)]

/-- Characterization of the `pileup_data` fold over a duplicate-free list
of well-formed entries: it succeeds and each cell holds the packed value of
the entry for its row when covered, and the starting value otherwise. -/
theorem pileup_loop_char {G K : ℕ} (l : List (FitResult G K)) :
    ∀ M1 M2 : Matrix (Fin G) (Fin K) ℚ,
      (∀ e ∈ l, e.betas.length = (bool_to_index e.pp).length ∧
          e.betas_resc.length = (bool_to_index e.pp).length) →
      (l.map FitResult.ind).Nodup →
      pileup_loop (M1, M2) (l.map some) =
        .ok (fun g j => entry_or l FitResult.betas M1 g j,
             fun g j => entry_or l FitResult.betas_resc M2 g j) := by
  induction l with
  | nil => intro M1 M2 _ _; rfl
  | cons e rest ih =>
    intro M1 M2 hlen hnd
    simp only [List.map_cons, pileup_loop, pileup_step]
    rw [if_pos (hlen e (List.mem_cons_self e rest))]
    refine Eq.trans
      (ih (mask_assign M1 e.ind e.pp e.betas)
        (mask_assign M2 e.ind e.pp e.betas_resc)
        (fun e' he' => hlen e' (List.mem_cons_of_mem _ he'))
        (List.nodup_cons.mp hnd).2) ?_
    refine congrArg Except.ok (congrArg₂ Prod.mk ?_ ?_)
    · funext g j
      exact entry_or_cons e rest FitResult.betas M1 hnd g j
    · funext g j
      exact entry_or_cons e rest FitResult.betas_resc M2 hnd g j

/-- `pileup_data` on a duplicate-free list of well-formed entries returns
the labeled matrices whose cells are given by `lookup_val`. -/
theorem pileup_data_char {G K : ℕ} (genes : Fin G → String)
    (tfs : Fin K → String) (l : List (FitResult G K))
    (hlen : ∀ e ∈ l, e.betas.length = (bool_to_index e.pp).length ∧
        e.betas_resc.length = (bool_to_index e.pp).length)
    (hnd : (l.map FitResult.ind).Nodup) :
    pileup_data genes tfs (l.map some) =
      .ok (⟨genes, tfs, fun g j => lookup_val l FitResult.betas g j⟩,
           ⟨genes, tfs, fun g j => lookup_val l FitResult.betas_resc g j⟩) := by
  rw [pileup_data, pileup_loop_char l _ _ hlen hnd]
  rfl

/-- Cells outside every mask for their row read zero. -/
theorem lookup_val_zero {G K : ℕ} {l : List (FitResult G K)}
    (sel : FitResult G K → List ℚ) {g : Fin G} {j : Fin K}
    (h : ∀ e ∈ l, e.ind = g → e.pp j = false) :
    lookup_val l sel g j = 0 := by
  rw [lookup_val, entry_or]
  cases hf : l.find? (fun e => decide (e.ind = g)) with
  | none => rfl
  | some e =>
    have hm := List.mem_of_find?_eq_some hf
    have hp0 := List.find?_some hf
    have hp : e.ind = g := of_decide_eq_true hp0
    simp only [Option.elim_some]
    rw [h e hm hp]
    rfl

/-! ### Claim C4 -/

/-- C4: for a run-data list with no `None` entry, well-formed packed
values, and one entry per response row, `pileup_data` succeeds with two
G x K matrices (the shape is carried by the type) labeled by the response
and predictor identifiers, every cell not covered by its row's
selected-predictor mask is exactly zero, and an entry that selects no
predictor yields an all-zero row in both matrices. -/
theorem pileup_data_shape_zero {G K : ℕ} (genes : Fin G → String)
    (tfs : Fin K → String) (l : List (FitResult G K))
    (hlen : ∀ e ∈ l, e.betas.length = (bool_to_index e.pp).length ∧
        e.betas_resc.length = (bool_to_index e.pp).length)
    (hnd : (l.map FitResult.ind).Nodup) :
    pileup_data genes tfs (l.map some) =
      .ok (⟨genes, tfs, fun g j => lookup_val l FitResult.betas g j⟩,
           ⟨genes, tfs, fun g j => lookup_val l FitResult.betas_resc g j⟩)
  ∧ (∀ (g : Fin G) (j : Fin K), (∀ e ∈ l, e.ind = g → e.pp j = false) →
      lookup_val l FitResult.betas g j = 0 ∧
        lookup_val l FitResult.betas_resc g j = 0)
  ∧ (∀ e ∈ l, (∀ j, e.pp j = false) → ∀ j,
      lookup_val l FitResult.betas e.ind j = 0 ∧
        lookup_val l FitResult.betas_resc e.ind j = 0) := by
  refine ⟨pileup_data_char genes tfs l hlen hnd, ?_, ?_⟩
  · intro g j h
    exact ⟨lookup_val_zero _ h, lookup_val_zero _ h⟩
  · intro e he hall j
    have h : ∀ e' ∈ l, e'.ind = e.ind → e'.pp j = false := by
      intro e' he' hind
      rw [fitresult_unique hnd he' he hind]
      exact hall j
    exact ⟨lookup_val_zero _ h, lookup_val_zero _ h⟩

/-! ### Claim C7 -/

theorem pileup_loop_none {G K : ℕ} (pre post : List (Option (FitResult G K))) :
    ∀ acc : Matrix (Fin G) (Fin K) ℚ × Matrix (Fin G) (Fin K) ℚ,
      isErr (pileup_loop acc (pre ++ none :: post)) = true
    ∧ pileup_loop acc (pre ++ none :: post) =
        pileup_loop acc (pre ++ [none]) := by
  induction pre with
  | nil => intro acc; exact ⟨rfl, rfl⟩
  | cons d pre ih =>
    intro acc
    simp only [List.cons_append, pileup_loop]
    cases hstep : pileup_step acc d with
    | error e => exact ⟨rfl, rfl⟩
    | ok acc2 => exact ih acc2

/-- C7: a run-data list containing a `None` entry makes `pileup_data`
raise `RuntimeError`: no pair of matrices is returned, and the entries
after the first `None` are never consulted (the run aborts there). -/
theorem pileup_data_none_raises {G K : ℕ} (genes : Fin G → String)
    (tfs : Fin K → String) (pre post : List (Option (FitResult G K))) :
    isErr (pileup_data genes tfs (pre ++ none :: post)) = true
  ∧ pileup_data genes tfs (pre ++ none :: post) =
      pileup_data genes tfs (pre ++ [none]) := by
  have h := pileup_loop_none pre post
    ((fun _ _ => 0 : Matrix (Fin G) (Fin K) ℚ),
     (fun _ _ => 0 : Matrix (Fin G) (Fin K) ℚ))
  cases hl : pileup_loop
      ((fun _ _ => 0 : Matrix (Fin G) (Fin K) ℚ),
       (fun _ _ => 0 : Matrix (Fin G) (Fin K) ℚ)) (pre ++ none :: post) with
  | ok v =>
    rw [hl] at h
    cases h.1
  | error e =>
    rw [hl] at h
    constructor
    · rw [pileup_data, hl]
      rfl
    · rw [pileup_data, pileup_data, hl, ← h.2]

/-! ### Claim C8 -/

/-- Lookup by response index is permutation invariant once indices are
duplicate free. -/
theorem find_ind_perm {G K : ℕ} {l lp : List (FitResult G K)}
    (hperm : l.Perm lp) (hnd : (l.map FitResult.ind).Nodup) (g : Fin G) :
    l.find? (fun e => decide (e.ind = g)) =
      lp.find? (fun e => decide (e.ind = g)) := by
  cases hf : l.find? (fun e => decide (e.ind = g)) with
  | none =>
    have hnone := List.find?_eq_none.mp hf
    symm
    rw [List.find?_eq_none]
    intro x hx
    exact hnone x (hperm.mem_iff.mpr hx)
  | some e =>
    have hm := List.mem_of_find?_eq_some hf
    have hp := List.find?_some hf
    symm
    refine find_eq_some_of_unique (hperm.mem_iff.mp hm) hp ?_
    intro a ha hpa
    exact fitresult_unique hnd (hperm.mem_iff.mpr ha) hm
      (by rw [of_decide_eq_true hpa, of_decide_eq_true hp])

/-- C8: because every fit result carries its response index, `pileup_data`
is invariant under permutation of a run-data list of well-formed non-None
entries with pairwise-distinct response indices. -/
theorem pileup_data_perm_invariant {G K : ℕ} (genes : Fin G → String)
    (tfs : Fin K → String) (l lp : List (FitResult G K))
    (hperm : l.Perm lp)
    (hlen : ∀ e ∈ l, e.betas.length = (bool_to_index e.pp).length ∧
        e.betas_resc.length = (bool_to_index e.pp).length)
    (hnd : (l.map FitResult.ind).Nodup) :
    pileup_data genes tfs (l.map some) =
      pileup_data genes tfs (lp.map some) := by
  have hnd2 : (lp.map FitResult.ind).Nodup :=
    ((hperm.map FitResult.ind).nodup_iff).mp hnd
  have hlen2 : ∀ e ∈ lp, e.betas.length = (bool_to_index e.pp).length ∧
      e.betas_resc.length = (bool_to_index e.pp).length :=
    fun e he => hlen e (hperm.mem_iff.mpr he)
  rw [pileup_data_char genes tfs l hlen hnd,
    pileup_data_char genes tfs lp hlen2 hnd2]
  have hlv : ∀ sel (g : Fin G) (j : Fin K),
      lookup_val l sel g j = lookup_val lp sel g j := by
    intro sel g j
    rw [lookup_val, lookup_val, entry_or, entry_or,
      find_ind_perm hperm hnd g]
  refine congrArg Except.ok (congrArg₂ Prod.mk ?_ ?_) <;>
  · refine congrArg (LabeledMatrix.mk genes tfs) ?_
    funext g j
    apply hlv

/-! ### Witnesses and counterexamples -/

/-- C1 witness: the all-zero 1 x 1 predictor column has a singular Gram
matrix, and both the primary fit and a leave-one-out refit on it return
the all-zero coefficient vector. -/
theorem rank_deficient_null_model_witness :
    detQ (selected_gram wZeroX
        (selected_of (none : Option (Fin 1 → Bool)))) = 0
  ∧ recalculate_betas_from_selected wZeroX wY1 none = (fun _ => 0)
  ∧ leaveout_beta_hat wZeroX wY1 [(0 : Fin 1)] = (fun _ => 0) := by
  have hdet : detQ (selected_gram wZeroX
      (selected_of (none : Option (Fin 1 → Bool)))) = 0 := by
    show detQ (selected_gram wZeroX [(0 : Fin 1)]) = 0
    simp [detQ, selected_gram, submatrix_cols, wZeroX, Matrix.mul_apply]
  have hdet2 : detQ (selected_gram wZeroX [(0 : Fin 1)]) = 0 := hdet
  exact ⟨hdet, (rank_deficient_null_model wZeroX wY1).1 none hdet,
    (rank_deficient_null_model wZeroX wY1).2 [(0 : Fin 1)] hdet2⟩

/-- C3 witness: a 1 x 1 predictor column with nonsingular Gram matrix, on
which the recalculated betas solve the normal equations. -/
theorem recalculate_betas_ols_witness :
    detQ (selected_gram wX1
        (selected_of (some (fun _ => true : Fin 1 → Bool)))) ≠ 0
  ∧ (selected_gram wX1
        (selected_of (some (fun _ => true : Fin 1 → Bool)))).mulVec
      (fun i => recalculate_betas_from_selected wX1 wY1 (some fun _ => true)
        ((selected_of (some (fun _ => true : Fin 1 → Bool))).get i)) =
      selected_xty wX1 wY1
        (selected_of (some (fun _ => true : Fin 1 → Bool))) := by
  have hdet : detQ (selected_gram wX1
      (selected_of (some (fun _ => true : Fin 1 → Bool)))) ≠ 0 := by
    show detQ (selected_gram wX1 [(0 : Fin 1)]) ≠ 0
    simp [detQ, selected_gram, submatrix_cols, wX1, Matrix.mul_apply]
  exact ⟨hdet, (recalculate_betas_ols wX1 wY1 (fun _ => true) hdet).1⟩

/-- C10 witness: a concrete all-zero betas vector produces the all-zero
score vector. -/
theorem predict_error_reduction_all_zero_witness :
    (∀ j : Fin 1, (fun _ => (0 : ℚ)) j = 0)
  ∧ predict_error_reduction wZeroX wY1 (fun _ => 0) = (fun _ => 0) :=
  ⟨fun _ => rfl,
   predict_error_reduction_all_zero wZeroX wY1 (fun _ => 0) fun _ => rfl⟩

/-- C2 witness: on the 2 x 2 identity design, a betas vector selecting one
predictor takes the direct-variance path, and one selecting both
predictors takes the leave-one-out path, whose singular-free refit solves
the leave-out normal equations. -/
theorem predict_error_reduction_two_paths_witness :
    (index_of_nonzeros wBetaSingle).length = 1
  ∧ predict_error_reduction wX2 wY2 wBetaSingle 0 =
      (if (0 : Fin 2) ∈ index_of_nonzeros wBetaSingle then
        1 - sigma_squared wX2 wY2 wBetaSingle / var_ddof1 wY2 else 0)
  ∧ 2 ≤ (index_of_nonzeros wBetaBoth).length
  ∧ predict_error_reduction wX2 wY2 wBetaBoth 0 =
      (if (0 : Fin 2) ∈ index_of_nonzeros wBetaBoth then
        (if |sigma_squared wX2 wY2 wBetaBoth -
            ss_leaveout_of wX2 wY2 (index_of_nonzeros wBetaBoth) 0| <
            machEps * ((index_of_nonzeros wBetaBoth).length : ℚ) then 0
         else 1 - sigma_squared wX2 wY2 wBetaBoth /
            ss_leaveout_of wX2 wY2 (index_of_nonzeros wBetaBoth) 0)
        else 0)
  ∧ detQ (selected_gram wX2 ((index_of_nonzeros wBetaBoth).erase 0)) ≠ 0
  ∧ (selected_gram wX2 ((index_of_nonzeros wBetaBoth).erase 0)).mulVec
      (leaveout_beta_hat wX2 wY2 ((index_of_nonzeros wBetaBoth).erase 0)) =
      selected_xty wX2 wY2 ((index_of_nonzeros wBetaBoth).erase 0) := by
  have h1 : (index_of_nonzeros wBetaSingle).length = 1 := by decide
  have h2 : 2 ≤ (index_of_nonzeros wBetaBoth).length := by decide
  have hmem : (0 : Fin 2) ∈ index_of_nonzeros wBetaBoth := by decide
  have hdet : detQ (selected_gram wX2
      ((index_of_nonzeros wBetaBoth).erase 0)) ≠ 0 := by
    show detQ (selected_gram wX2 [(1 : Fin 2)]) ≠ 0
    norm_num [detQ, selected_gram, submatrix_cols, wX2, Matrix.mul_apply,
      Fin.sum_univ_succ]
  exact ⟨h1,
    (predict_error_reduction_two_paths wX2 wY2 wBetaSingle).1 h1 0,
    h2,
    (predict_error_reduction_two_paths wX2 wY2 wBetaBoth).2.1 h2 0,
    hdet,
    ((predict_error_reduction_two_paths wX2 wY2 wBetaBoth).2.2 0 hmem
      hdet).1⟩

/-- C4 witness: a single null fit over one gene and one predictor gives a
successful pileup whose row is all zero. -/
theorem pileup_data_shape_zero_witness :
    (∀ e ∈ [wNullFit], e.betas.length = (bool_to_index e.pp).length ∧
        e.betas_resc.length = (bool_to_index e.pp).length)
  ∧ ([wNullFit].map FitResult.ind).Nodup
  ∧ pileup_data wGenes wTfs ([wNullFit].map some) =
      .ok (⟨wGenes, wTfs,
              fun g j => lookup_val [wNullFit] FitResult.betas g j⟩,
           ⟨wGenes, wTfs,
              fun g j => lookup_val [wNullFit] FitResult.betas_resc g j⟩)
  ∧ lookup_val [wNullFit] FitResult.betas wNullFit.ind 0 = 0 := by
  have hlen : ∀ e ∈ [wNullFit],
      e.betas.length = (bool_to_index e.pp).length ∧
        e.betas_resc.length = (bool_to_index e.pp).length := by decide
  have hnd : ([wNullFit].map FitResult.ind).Nodup := by decide
  refine ⟨hlen, hnd,
    (pileup_data_shape_zero wGenes wTfs [wNullFit] hlen hnd).1, ?_⟩
  exact ((pileup_data_shape_zero wGenes wTfs [wNullFit] hlen hnd).2.2
    wNullFit (List.mem_singleton.mpr rfl) (fun _ => rfl) 0).1

/-- C8 witness: swapping two concrete fit results with distinct response
indices leaves the pileup output unchanged. -/
theorem pileup_data_perm_invariant_witness :
    [wFitA, wFitB].Perm [wFitB, wFitA]
  ∧ ([wFitA, wFitB].map FitResult.ind).Nodup
  ∧ pileup_data wGenes2 wTfs ([wFitA, wFitB].map some) =
      pileup_data wGenes2 wTfs ([wFitB, wFitA].map some) := by
  have hperm : [wFitA, wFitB].Perm [wFitB, wFitA] :=
    List.Perm.swap wFitB wFitA []
  have hnd : ([wFitA, wFitB].map FitResult.ind).Nodup := by decide
  have hlen : ∀ e ∈ [wFitA, wFitB],
      e.betas.length = (bool_to_index e.pp).length ∧
        e.betas_resc.length = (bool_to_index e.pp).length := by decide
  exact ⟨hperm, hnd, pileup_data_perm_invariant wGenes2 wTfs
    [wFitA, wFitB] [wFitB, wFitA] hperm hlen hnd⟩

/-- C9 witness: matching sizes give the outer-product subtraction, while a
length-2 expression vector against one sample raises the dimension
error. -/
theorem remove_gene_outer_product_witness :
    remove_gene_from_activity wAct wGeneExpr wPrior =
      .ok (fun i j => wAct i j -
        wGeneExpr (Fin.cast rfl i) * wPrior (Fin.cast rfl j))
  ∧ (2 : ℕ) ≠ 1
  ∧ isErr (remove_gene_from_activity wAct wGeneExprBad wPrior) = true :=
  ⟨(remove_gene_outer_product wAct wGeneExpr wPrior).1 rfl rfl,
   by decide,
   (remove_gene_outer_product wAct wGeneExprBad wPrior).2.1 (by decide)⟩

/-- C6 counterexample: with circularity removal disabled, a response
vector of length 2 against a 1-sample activity matrix raises no dimension
error at all — `gene_preprocess` succeeds — refuting the claim that the
dimension check fires regardless of the circularity-removal setting. -/
theorem gene_preprocess_no_check_counterexample :
    (2 : ℕ) ≠ 1
  ∧ isErr (gene_preprocess false id id wZeroX wGeneExprBad wPrior) =
      false :=
  ⟨by decide, rfl⟩

/-- C6 witness: with circularity removal enabled the mismatched response
vector raises the dimension error, and matching sizes succeed with the
rebuilt activity. -/
theorem gene_preprocess_dimension_check_witness :
    (2 : ℕ) ≠ 1
  ∧ isErr (gene_preprocess true id id wZeroX wGeneExprBad wPrior) = true
  ∧ gene_preprocess true id id wZeroX wY1 wPrior =
      .ok (id (fun i j => wZeroX i j -
        wY1 (Fin.cast rfl i) * wPrior (Fin.cast rfl j)), id wY1) :=
  ⟨by decide,
   (gene_preprocess_dimension_check id id wZeroX wGeneExprBad wPrior).1
     (by decide),
   (gene_preprocess_dimension_check id id wZeroX wY1 wPrior).2.2.1 rfl rfl⟩

/-- C5 counterexample: instrumenting `run_bootstrap` to report the random
state it observes shows that the single-task loop hands it the freshly
reseeded state `base_seed + 0`, while the multitask loop hands it the
inherited, never-seeded state — refuting the claim that the multitask
variant performs the same deterministic reseed. -/
theorem multitask_no_reseed_counterexample :
    (run_regression_single (0 : ℤ) [0]
        (fun s _ => (s, s, s)) ⟨none⟩).2.1 = [⟨some 0⟩]
  ∧ (run_regression_multitask 1 1 rb_probe ⟨none⟩).2.1 = [[⟨none⟩]]
  ∧ RandomState.mk none ≠ RandomState.mk (some 0) :=
  ⟨rfl, rfl, by decide⟩

end Inferelator
